import Mathlib

/-!
Verification of the NeonLadderURP package-automation scripts
(`Scripts/download_unity_packages.py`, `Scripts/sync_unity_packages.py`,
`Scripts/export_unity_packages.py`) against their natural-language
specification.

The Python code is shallowly embedded: strings and byte payloads are
`List Char`, the filesystem visible to one call is passed explicitly,
network and subprocess behaviour is an explicit environment record, and
Python exceptions become `Except`/`Option` results.  Python float
arithmetic on sizes (`len(content) / (1024*1024)` compared with
`max_size_gb * 1024`) is modelled over `ℚ`; both operands are exact
binary floats for any payload below 2^53 bytes (division by a power of
two is exact), so the rational comparison coincides with the float one
on the whole modelled domain.
-/

namespace NeonLadder

/-- Characters matched by the regex class `[a-zA-Z0-9_-]` used by
`extract_file_id` and by the confirmation-token pattern. -/
def idChar (c : Char) : Bool :=
  c.isAlpha || c.isDigit || c == '_' || c == '-'

/-- Python's `needle in haystack` substring test over character lists. -/
def containsSub (needle : List Char) : List Char → Bool
  | [] => needle.isEmpty
  | h :: t => needle.isPrefixOf (h :: t) || containsSub needle t

/-- `re.search` for a regex of the shape `lit([cls]+)`: scan left to
right for the first position where the literal `lit` occurs and is
followed by at least one `cls` character; return the (greedy) captured
group.  This is exactly how CPython resolves the three patterns of
`extract_file_id`, the `confirm=([a-zA-Z0-9_-]+)` token pattern and the
`https://drive\.google\.com/[^\s]+` link pattern. -/
def searchRun (lit : List Char) (cls : Char → Bool) : List Char → Option (List Char)
  | [] => none
  | h :: t =>
    if lit.isPrefixOf (h :: t) then
      let run := ((h :: t).drop lit.length).takeWhile cls
      if run.isEmpty then searchRun lit cls t else some run
    else searchRun lit cls t

def pat1 : List Char := "/file/d/".data
def pat2 : List Char := "id=".data
def pat3 : List Char := "/open?id=".data

/-- `GoogleDriveDownloader.extract_file_id`: the three patterns are
tried in a fixed order; the first pattern that matches anywhere in the
URL wins and its captured group is returned. -/
def extract_file_id (url : List Char) : Option (List Char) :=
  match searchRun pat1 idChar url with
  | some g => some g
  | none =>
    match searchRun pat2 idChar url with
    | some g => some g
    | none => searchRun pat3 idChar url

/-! ## Locator: `DownloadInstructions.txt` discovery

A pointer file is its path (as `pathlib` parts, relative to the project
root, last part the file name) together with its text, `none` when the
file is unreadable (reading it raises `OSError`/`UnicodeDecodeError`).
Discovery receives the `rglob` result lists for the two search roots
(`Assets/Packages` and `Assets/Audio`), in traversal order. -/

structure TxtFile where
  parts : List String
  content : Option String
deriving DecidableEq

/-- `str(txt_file)` for a relative path: parts joined by `/`. -/
def joinPath : List String → List Char
  | [] => []
  | p :: rest =>
    match rest with
    | [] => p.data
    | _ :: _ => p.data ++ '/' :: joinPath rest

/-- Python's `list.index(x)`: index of the first exact occurrence, a
`ValueError` (here `none`) when absent. -/
def pyIndex : List String → String → Option Nat
  | [], _ => none
  | p :: rest, k => if p = k then some 0 else (pyIndex rest k).map (· + 1)

/-- `txt_file.parent.name`: the next-to-last path part (`""` when the
path has a single part, as in `pathlib`). -/
def parentName (parts : List String) : String :=
  parts.dropLast.getLast?.getD ""

def leartes : String := "LeartesStudios"

/-- The canonical-name/package-path derivation shared (verbatim, in
duplicated code) by `UnityPackageDownloader.find_download_instructions`
and `UnityPackageSync.find_packages_to_sync`:

* `"LeartesStudios" in str(txt_file)` — a substring test on the whole
  path string;
* `parts.index("LeartesStudios")` — first exact part, `ValueError`
  (modelled `.error ()`) when no part is exactly `LeartesStudios`;
* `leartes_idx + 1 < len(parts) - 1` picks `LeartesStudios/<next part>`,
  else the bare vendor name; otherwise the parent directory's name.

The second component is the `package_path` computed only by the sync
variant (`parts[:leartes_idx+2]`, `parts[:leartes_idx+1]`, or the
parent directory). -/
def deriveNamePath (parts : List String) : Except Unit (String × List String) :=
  if containsSub leartes.data (joinPath parts) then
    match pyIndex parts leartes with
    | none => .error ()
    | some idx =>
      if idx + 1 < parts.length - 1 then
        .ok (leartes ++ "/" ++ (parts.getD (idx + 1) ""), parts.take (idx + 2))
      else
        .ok (leartes, parts.take (idx + 1))
  else
    .ok (parentName parts, parts.dropLast)

def deriveName (parts : List String) : Except Unit String :=
  (deriveNamePath parts).map Prod.fst

/-- The literal prefix of the link regex
`https://drive\.google\.com/[^\s]+`. -/
def driveLit : List Char := "https://drive.google.com/".data

/-- ASCII whitespace for the regex class `\s` (Unicode space characters
are not modelled; no pointer-file content in any theorem contains
them). -/
def isSpaceChar (c : Char) : Bool :=
  c == ' ' || c == '\t' || c == '\n' || c == '\r' || c == '\x0b' || c == '\x0c'

/-- First match of `re.findall(r'https://drive\.google\.com/[^\s]+', content)`
(the code uses `matches[0]`). -/
def findDriveUrl (content : List Char) : Option (List Char) :=
  (searchRun driveLit (fun c => !isSpaceChar c) content).map (driveLit ++ ·)

/-- One record of `find_download_instructions` (the `relative_path` and
`path` string fields carry no further information and are omitted). -/
structure DlRecord where
  name : String
  url : List Char
deriving DecidableEq

/-- Per-file body of the `find_download_instructions` loop.  The whole
body runs inside `try: ... except Exception`, so an unreadable file or
a `ValueError` from the name derivation merely skips the file; a file
whose text has no full drive-URL match is also skipped. -/
def processDlFile (f : TxtFile) : Option DlRecord :=
  match f.content with
  | none => none
  | some c =>
    match findDriveUrl c.data with
    | none => none
    | some url =>
      match deriveName f.parts with
      | .error _ => none
      | .ok name => some ⟨name, url⟩

/-- `UnityPackageDownloader.find_download_instructions`: the Packages
root is walked before the Audio root; every qualifying file appends a
record; there is no deduplication step. -/
def find_download_instructions (packagesFiles audioFiles : List TxtFile) : List DlRecord :=
  (packagesFiles ++ audioFiles).filterMap processDlFile

/-- `UnityPackageSync._has_drive_link`: a bare substring test, `False`
when reading the file raises. -/
def hasDriveLink (content : Option String) : Bool :=
  match content with
  | none => false
  | some c => containsSub "drive.google.com".data c.data

/-- One record of `find_packages_to_sync`. -/
structure SyncRecord where
  name : String
  path : List String
  file : TxtFile
  has_link : Bool
deriving DecidableEq

/-- The `find_packages_to_sync` loop body over one root's files (no
`try` here: a `ValueError` from `parts.index` aborts the whole
discovery). -/
def syncDiscover : List TxtFile → Except Unit (List SyncRecord)
  | [] => .ok []
  | f :: rest =>
    match deriveNamePath f.parts with
    | .error e => .error e
    | .ok (n, p) =>
      match syncDiscover rest with
      | .error e => .error e
      | .ok rs => .ok (⟨n, p, f, hasDriveLink f.content⟩ :: rs)

/-- `UnityPackageSync.find_packages_to_sync`: Packages root first, then
Audio root. -/
def find_packages_to_sync (packagesFiles audioFiles : List TxtFile) :
    Except Unit (List SyncRecord) :=
  syncDiscover (packagesFiles ++ audioFiles)

/-- `UnityPackageSync.sync_package`, observed through its return value
and whether an upload was attempted.  A package whose record already
has a link returns `True` immediately (skip, no upload); otherwise an
export (or placeholder, when `usePlaceholder`) is required and the
package is uploaded; success is exactly a successful upload.  The
side-effecting instruction-file rewrite and config mapping on success
are not observed by any claim and are not modelled. -/
def sync_package (r : SyncRecord) (exportExists usePlaceholder : Bool)
    (uploadLink : Option String) : Bool × Bool :=
  if r.has_link then (true, false)
  else if !exportExists && !usePlaceholder then (false, false)
  else (uploadLink.isSome, true)

/-! ## RemoteFetcher: `GoogleDriveDownloader`

One call is modelled against an explicit environment: the pre-existing
content of the destination file (`none` when absent), the two network
responses a run could consume (the direct-URL GET and the
confirmation-token GET; `.error ()` when `urlopen`/`read` raises), and
for the curl path the subprocess outcome.  The outcome records whether
the call returned a path (`success`), what file the destination holds
afterwards, and how many network/subprocess calls were attempted. -/

structure NetEnv where
  first : Except Unit (List Char)
  second : Except Unit (List Char)

structure FetchOutcome where
  success : Bool
  fileAfter : Option (List Char)
  calls : Nat
deriving DecidableEq

def confirmLit : List Char := "confirm=".data
def virusLit : List Char := "virus scan warning".data

/-- The interstitial test of `download_file`:
`b"confirm=" in content or b"virus scan warning" in content.lower()`
(`bytes.lower` lowercases ASCII letters, as `Char.toLower` does). -/
def interstitialDetected (content : List Char) : Bool :=
  containsSub confirmLit content ||
    containsSub virusLit (content.map Char.toLower)

/-- `GoogleDriveDownloader.download_file`, step for step:
1. extract the file id — failure returns `None` before anything else;
2. return the existing destination file if present;
3. GET the direct URL (any exception → `None`, nothing written);
4. if the interstitial is detected and a `confirm=<token>` matches,
   re-GET with the token and take the second body, else keep the first;
5. compare `len(content)/(1024*1024)` with `max_size_gb*1024`
   (over `ℚ`, see the header note) — too large → `None`, no write;
6. otherwise write the payload and return the path.

The size check and write (lines 99–113 of the source) are split into
`sizeGate`: `file_size_mb = len(content)/(1024*1024)` is compared with
`max_size_mb = max_size_gb * 1024`; too large returns `None` without
writing, otherwise the payload is written and the path returned; `n`
is the number of GETs already performed. -/
def sizeGate (payload : List Char) (n : Nat) (maxSizeGb : ℚ) : FetchOutcome :=
  if ((payload.length : ℚ) / (1024 * 1024)) > maxSizeGb * 1024 then
    ⟨false, none, n⟩
  else
    ⟨true, some payload, n⟩

def download_file (url : List Char) (pre : Option (List Char)) (net : NetEnv)
    (maxSizeGb : ℚ) : FetchOutcome :=
  match extract_file_id url with
  | none => ⟨false, pre, 0⟩
  | some _ =>
    match pre with
    | some c => ⟨true, some c, 0⟩
    | none =>
      match net.first with
      | .error _ => ⟨false, none, 1⟩
      | .ok content1 =>
        if interstitialDetected content1 then
          match searchRun confirmLit idChar content1 with
          | some _ =>
            match net.second with
            | .error _ => ⟨false, none, 2⟩
            | .ok payload => sizeGate payload 2 maxSizeGb
          | none => sizeGate content1 1 maxSizeGb
        else sizeGate content1 1 maxSizeGb

/-- Subprocess environment for `download_with_curl`: whether the curl
executable exists (its absence makes `subprocess.run` raise
`FileNotFoundError` before any process starts), the exit status, and
the destination file's content after curl ran (curl may leave a
partial file on failure). -/
structure CurlEnv where
  present : Bool
  rc : Int
  fileAfter : Option (List Char)
deriving DecidableEq

/-- `GoogleDriveDownloader.download_with_curl`:
extract the id (failure → `None` before the cache check); return the
existing destination file if present; if curl is absent fall back to
`download_file`; otherwise run curl once — success iff the exit status
is `0` and the destination file exists, and on failure any partial
destination file is unlinked before returning `None`.  The curl path
performs no size check. -/
def download_with_curl (url : List Char) (pre : Option (List Char))
    (cenv : CurlEnv) (net : NetEnv) (maxSizeGb : ℚ) : FetchOutcome :=
  match extract_file_id url with
  | none => ⟨false, pre, 0⟩
  | some _ =>
    match pre with
    | some c => ⟨true, some c, 0⟩
    | none =>
      if cenv.present then
        if cenv.rc = 0 ∧ cenv.fileAfter.isSome then ⟨true, cenv.fileAfter, 1⟩
        else ⟨false, none, 1⟩
      else download_file url none net maxSizeGb

/-! ## SyncLedger: `UnityPackageSync._load_config`

JSON values as Python's `json` module produces them; the persisted
configuration file is `none` when missing, `some (.error ())` when
present but not syntactically valid JSON (`json.JSONDecodeError`), and
`some (.ok v)` when it parses to `v`.  `dict.update` keeps the position
of overwritten keys and appends fresh keys, which `dictUpdate`
reproduces on association lists. -/

inductive PyJson where
  | obj : List (String × PyJson) → PyJson
  | arr : List PyJson → PyJson
  | str : String → PyJson
  | num : Int → PyJson
  | bool : Bool → PyJson
  | null : PyJson

/-- Replace the value under `k`, preserving its position; append when
absent (CPython `dict.__setitem__` on a dict with unique keys). -/
def setKey : List (String × PyJson) → String → PyJson → List (String × PyJson)
  | [], k, v => [(k, v)]
  | (k', v') :: rest, k, v =>
    if k' = k then (k, v) :: rest else (k', v') :: setKey rest k v

/-- `base.update(overlay)` for two dicts. -/
def dictUpdate : List (String × PyJson) → List (String × PyJson) → List (String × PyJson)
  | base, [] => base
  | base, (k, v) :: rest => dictUpdate (setKey base k v) rest

/-- `default_config.update(loaded)` when `loaded` is an arbitrary JSON
value.  A dict merges; a number, boolean or `null` is not iterable and
raises `TypeError`; a nonempty string iterates into length-1 character
"pairs" and raises `ValueError`; the empty string is an empty iterable
and merges nothing.  (CPython also accepts exotic sequences of
key/value pairs, e.g. a list of two-element lists; those exceed the
string-keyed representation here, are modelled as errors, and no
theorem touches that branch.) -/
def updateWith (base : List (String × PyJson)) : PyJson → Except Unit (List (String × PyJson))
  | .obj kvs => .ok (dictUpdate base kvs)
  | .str s => if s = "" then .ok base else .error ()
  | .arr _ => .error ()
  | .num _ => .error ()
  | .bool _ => .error ()
  | .null => .error ()

/-- The hard-coded `default_config` of `UnityPackageSync._load_config`. -/
def defaultConfig : List (String × PyJson) :=
  [("google_drive_folder", .str "NeonLadder_Packages"),
   ("last_sync", .null),
   ("package_mappings", .obj []),
   ("auto_update_instructions", .bool true)]

/-- `UnityPackageSync._load_config`: a missing file yields the
defaults; a present file is `json.load`ed inside
`try: ... except json.JSONDecodeError`, so a syntax error also yields
the defaults, while any exception raised by
`default_config.update(loaded_config)` propagates to the caller. -/
def load_config (file : Option (Except Unit PyJson)) :
    Except Unit (List (String × PyJson)) :=
  match file with
  | none => .ok defaultConfig
  | some (.error _) => .ok defaultConfig
  | some (.ok v) => updateWith defaultConfig v

/-! ## Auxiliary notions used only by theorem statements and proofs -/

/-- Declarative reading of "the regex `lit([cls]+)` matches the string
`s` at position `i`", independent of the scanning order of
`searchRun`: the literal occurs at `i` and at least one `cls`
character follows it. -/
def goodAt (lit : List Char) (cls : Char → Bool) (s : List Char) (i : Nat) : Prop :=
  lit.isPrefixOf (s.drop i) = true ∧
    ∃ c, (s.drop (i + lit.length)).head? = some c ∧ cls c = true

/-- `hardMismatch lit s` holds when `lit` and `s` disagree at some
position that lies strictly inside both, so that `lit` cannot occur at
the start of `s ++ rest` for any continuation `rest`. -/
def hardMismatch : List Char → List Char → Bool
  | [], _ => false
  | _ :: _, [] => false
  | l :: lr, s :: sr => if l == s then hardMismatch lr sr else true

/-- Python `d[k]` / `k in d` on the association lists representing
dicts: the value under the key, if any. -/
def getKey (k : String) : List (String × PyJson) → Option PyJson
  | [] => none
  | (k', v) :: rest => if k' = k then some v else getKey k rest

/-- Fixture: a pointer file under the Packages root whose text holds a
full drive URL. -/
def linkedFile : TxtFile :=
  ⟨["Assets", "Packages", "Linked", "DownloadInstructions.txt"],
   some "Download from:\nhttps://drive.google.com/file/d/abc123/view?usp=sharing\n"⟩

/-- Fixture: a pointer file under the Audio root with no link. -/
def plainFile : TxtFile :=
  ⟨["Assets", "Audio", "Plain", "DownloadInstructions.txt"], some "No link yet"⟩

/-! ## Helper lemmas: substring search -/

lemma isPrefixOf_append_self (l t : List Char) : l.isPrefixOf (l ++ t) = true := by
  induction l with
  | nil => simp [List.isPrefixOf]
  | cons c l ih => simp [List.isPrefixOf, ih]

lemma isPrefixOf_extend {n s : List Char} (t : List Char)
    (h : n.isPrefixOf s = true) : n.isPrefixOf (s ++ t) = true := by
  induction n generalizing s with
  | nil => simp [List.isPrefixOf]
  | cons c n ih =>
    cases s with
    | nil => simp [List.isPrefixOf] at h
    | cons b s =>
      simp only [List.isPrefixOf, Bool.and_eq_true, beq_iff_eq] at h ⊢
      exact ⟨h.1, ih h.2⟩

lemma containsSub_cons {n t : List Char} (c : Char)
    (h : containsSub n t = true) : containsSub n (c :: t) = true := by
  simp [containsSub, h]

lemma containsSub_append_right {n t : List Char} (s : List Char)
    (h : containsSub n t = true) : containsSub n (s ++ t) = true := by
  induction s with
  | nil => exact h
  | cons c s ih => exact containsSub_cons c ih

lemma containsSub_of_prefix {n s : List Char} (h : n.isPrefixOf s = true) :
    containsSub n s = true := by
  cases n with
  | nil =>
    cases s with
    | nil => rfl
    | cons c s => simp [containsSub]
  | cons c n =>
    cases s with
    | nil => simp [List.isPrefixOf] at h
    | cons b s => simp [containsSub, h]

lemma containsSub_append_self (n t : List Char) : containsSub n (n ++ t) = true :=
  containsSub_of_prefix (isPrefixOf_append_self n t)

lemma hardMismatch_isPrefixOf_false {lit s : List Char}
    (h : hardMismatch lit s = true) (rest : List Char) :
    lit.isPrefixOf (s ++ rest) = false := by
  induction lit generalizing s with
  | nil => simp [hardMismatch] at h
  | cons l lr ih =>
    cases s with
    | nil => simp [hardMismatch] at h
    | cons c s =>
      by_cases hc : l = c
      · subst hc
        simp only [hardMismatch, beq_self_eq_true, if_true] at h
        simp [List.isPrefixOf, ih h]
      · simp [List.isPrefixOf, hc]

lemma searchRun_skip {lit : List Char} (cls : Char → Bool) (A rest : List Char)
    (h : ∀ i, i < A.length → hardMismatch lit (A.drop i) = true) :
    searchRun lit cls (A ++ rest) = searchRun lit cls rest := by
  induction A with
  | nil => rfl
  | cons c A ih =>
    have h0 : lit.isPrefixOf ((c :: A) ++ rest) = false :=
      hardMismatch_isPrefixOf_false (h 0 (by simp)) rest
    simp only [List.cons_append] at h0 ⊢
    rw [searchRun, if_neg (by simp [h0])]
    exact ih (fun i hi => h (i + 1) (by simpa using Nat.succ_lt_succ hi))

lemma searchRun_all_ne {l0 : Char} {lr : List Char} (cls : Char → Bool)
    {s : List Char} (h : ∀ c ∈ s, c ≠ l0) :
    searchRun (l0 :: lr) cls s = none := by
  induction s with
  | nil => rfl
  | cons c t ih =>
    have hc : (l0 == c) = false := by
      simp only [beq_eq_false_iff_ne]
      exact fun e => h c (by simp) e.symm
    rw [searchRun, if_neg (by simp [List.isPrefixOf, hc])]
    exact ih (fun x hx => h x (by simp [hx]))

lemma takeWhile_all {cls : Char → Bool} {s : List Char}
    (h : ∀ c ∈ s, cls c = true) : s.takeWhile cls = s := by
  induction s with
  | nil => rfl
  | cons c t ih =>
    rw [List.takeWhile_cons, h c (by simp)]
    simp [ih (fun x hx => h x (by simp [hx]))]

lemma takeWhile_append_stop {cls : Char → Bool} {s : List Char} {c : Char}
    (t : List Char) (hs : ∀ x ∈ s, cls x = true) (hc : cls c = false) :
    (s ++ c :: t).takeWhile cls = s := by
  induction s with
  | nil => simp [List.takeWhile_cons, hc]
  | cons b s ih =>
    rw [List.cons_append, List.takeWhile_cons, hs b (by simp)]
    simp [ih (fun x hx => hs x (by simp [hx]))]

lemma searchRun_here {lit : List Char} (cls : Char → Bool) (s : List Char)
    (hlit : lit ≠ []) (hne : s.takeWhile cls ≠ []) :
    searchRun lit cls (lit ++ s) = some (s.takeWhile cls) := by
  cases lit with
  | nil => exact absurd rfl hlit
  | cons l lr =>
    rw [List.cons_append, searchRun,
      if_pos (by simp [isPrefixOf_append_self (l :: lr) s])]
    simp only [← List.cons_append, List.length_cons]
    rw [List.drop_left' (by simp)]
    simp [hne]

lemma takeWhile_isEmpty_of {cls : Char → Bool} {l : List Char}
    (h : ∀ c, l.head? = some c → cls c = false) :
    (l.takeWhile cls).isEmpty = true := by
  cases l with
  | nil => rfl
  | cons c t => simp [List.takeWhile_cons, h c rfl]

lemma goodAt_cons {lit : List Char} {cls : Char → Bool} {c : Char}
    {t : List Char} {i : Nat} (h : goodAt lit cls t i) :
    goodAt lit cls (c :: t) (i + 1) := by
  obtain ⟨h1, ch, h2, h3⟩ := h
  refine ⟨by simpa using h1, ch, ?_, h3⟩
  have he : i + 1 + lit.length = (i + lit.length) + 1 := by omega
  rw [he]
  simpa using h2

lemma searchRun_eq_none_of {lit : List Char} {cls : Char → Bool} {s : List Char}
    (h : ∀ i, ¬ goodAt lit cls s i) : searchRun lit cls s = none := by
  induction s with
  | nil => rfl
  | cons c t ih =>
    have hrec : searchRun lit cls t = none :=
      ih (fun i hg => h (i + 1) (goodAt_cons hg))
    by_cases hp : lit.isPrefixOf (c :: t) = true
    · have hempty : (((c :: t).drop lit.length).takeWhile cls).isEmpty = true := by
        refine takeWhile_isEmpty_of (fun ch hch => ?_)
        by_contra hcls
        exact h 0 ⟨by simpa using hp, ch, by simpa using hch,
          by simpa using eq_true_of_ne_false hcls⟩
      rw [searchRun, if_pos hp]
      simp only [hempty, if_true]
      exact hrec
    · rw [searchRun, if_neg hp]
      exact hrec

lemma joinPath_cons_cons (p q : String) (rest : List String) :
    joinPath (p :: q :: rest) = p.data ++ '/' :: joinPath (q :: rest) := rfl

lemma containsSub_joinPath_mem (x : String) (a r : List String) :
    containsSub x.data (joinPath (a ++ x :: r)) = true := by
  induction a with
  | nil =>
    cases r with
    | nil => simpa using containsSub_append_self x.data []
    | cons q r' => simpa [joinPath] using containsSub_append_self x.data _
  | cons p a' ih =>
    obtain ⟨y, ys, ha⟩ : ∃ y ys, a' ++ x :: r = y :: ys := by
      cases h : a' ++ x :: r with
      | nil => exact absurd h (by simp)
      | cons y ys => exact ⟨y, ys, rfl⟩
    rw [List.cons_append, ha, joinPath_cons_cons, ← ha]
    exact containsSub_append_right _ (containsSub_cons _ ih)

lemma pyIndex_append {a : List String} (k : String) (r : List String)
    (h : k ∉ a) : pyIndex (a ++ k :: r) k = some a.length := by
  induction a with
  | nil => simp [pyIndex]
  | cons p a' ih =>
    have hp : p ≠ k := by
      intro e; exact h (by simp [e])
    have ih' := ih (fun hm => h (by simp [hm]))
    simp [pyIndex, hp, ih']

lemma getD_append_cons (a : List String) (x : String) (l : List String)
    (d : String) : (a ++ x :: l).getD (a.length + 1) d = l.getD 0 d := by
  induction a with
  | nil => simp [List.getD]
  | cons p a' ih => simpa [List.getD] using ih

lemma syncDiscover_ok {files : List TxtFile} {recs : List SyncRecord}
    (h : syncDiscover files = .ok recs) :
    recs.map SyncRecord.file = files ∧
      ∀ r ∈ recs, r.has_link = hasDriveLink r.file.content := by
  induction files generalizing recs with
  | nil =>
    simp only [syncDiscover] at h
    cases h
    simp
  | cons f rest ih =>
    simp only [syncDiscover] at h
    cases hd : deriveNamePath f.parts with
    | error e => rw [hd] at h; cases h
    | ok np =>
      obtain ⟨n, p⟩ := np
      rw [hd] at h
      cases hrest : syncDiscover rest with
      | error e => rw [hrest] at h; cases h
      | ok rs =>
        rw [hrest] at h
        cases h
        obtain ⟨ih1, ih2⟩ := ih hrest
        refine ⟨by simp [ih1], ?_⟩
        intro r hr
        rcases List.mem_cons.mp hr with hr | hr
        · subst hr; rfl
        · exact ih2 r hr

lemma getKey_setKey_self (k : String) (v : PyJson)
    (base : List (String × PyJson)) : getKey k (setKey base k v) = some v := by
  induction base with
  | nil => simp [setKey, getKey]
  | cons kv rest ih =>
    obtain ⟨k', v'⟩ := kv
    by_cases hk : k' = k
    · subst hk; simp [setKey, getKey]
    · simp [setKey, getKey, hk, ih]

lemma getKey_setKey_ne {k k' : String} (v : PyJson)
    (base : List (String × PyJson)) (h : k' ≠ k) :
    getKey k' (setKey base k v) = getKey k' base := by
  induction base with
  | nil => simp [setKey, getKey, Ne.symm h]
  | cons kv rest ih =>
    obtain ⟨k1, v1⟩ := kv
    by_cases hk : k1 = k
    · subst hk
      simp [setKey, getKey, Ne.symm h]
    · simp [setKey, getKey, hk, ih]

lemma getKey_eq_none_iff (k : String) (l : List (String × PyJson)) :
    getKey k l = none ↔ k ∉ l.map Prod.fst := by
  induction l with
  | nil => simp [getKey]
  | cons kv rest ih =>
    obtain ⟨k1, v1⟩ := kv
    by_cases hk : k1 = k
    · subst hk; simp [getKey]
    · simp [getKey, hk, ih, Ne.symm hk]

lemma getKey_dictUpdate_not_mem {k : String} {overlay : List (String × PyJson)}
    (base : List (String × PyJson)) (h : k ∉ overlay.map Prod.fst) :
    getKey k (dictUpdate base overlay) = getKey k base := by
  induction overlay generalizing base with
  | nil => rfl
  | cons kv rest ih =>
    obtain ⟨k1, v1⟩ := kv
    simp only [List.map_cons, List.mem_cons] at h
    push_neg at h
    rw [dictUpdate, ih _ h.2, getKey_setKey_ne _ _ h.1]

lemma getKey_dictUpdate_mem {k : String} {v : PyJson}
    {overlay : List (String × PyJson)} (base : List (String × PyJson))
    (hnd : (overlay.map Prod.fst).Nodup) (hv : getKey k overlay = some v) :
    getKey k (dictUpdate base overlay) = some v := by
  induction overlay generalizing base with
  | nil => simp [getKey] at hv
  | cons kv rest ih =>
    obtain ⟨k1, v1⟩ := kv
    simp only [List.map_cons, List.nodup_cons] at hnd
    by_cases hk : k1 = k
    · subst hk
      have hv1 : v1 = v := by simpa [getKey] using hv
      subst hv1
      rw [dictUpdate, getKey_dictUpdate_not_mem _ hnd.1, getKey_setKey_self]
    · simp only [getKey, if_neg hk] at hv
      rw [dictUpdate]
      exact ih _ hnd.2 hv

/-! ## Claim theorems -/

lemma div_mb_gt_iff {x m : ℚ} : (x / (1024 * 1024) > m * 1024) ↔ x > m * 2 ^ 30 := by
  rw [gt_iff_lt, lt_div_iff₀ (by norm_num : (0 : ℚ) < 1024 * 1024)]
  constructor <;> intro h <;> nlinarith [h]

lemma sizeGate_of_gt {payload : List Char} {m : ℚ} (n : Nat)
    (h : (payload.length : ℚ) > m * 2 ^ 30) :
    sizeGate payload n m = ⟨false, none, n⟩ := by
  rw [sizeGate, if_pos (div_mb_gt_iff.mpr h)]

lemma sizeGate_of_le {payload : List Char} {m : ℚ} (n : Nat)
    (h : (payload.length : ℚ) ≤ m * 2 ^ 30) :
    sizeGate payload n m = ⟨true, some payload, n⟩ := by
  rw [sizeGate, if_neg]
  intro hgt
  exact absurd (div_mb_gt_iff.mp hgt) (not_lt.mpr h)

lemma sizeGate_fileAfter {payload : List Char} {m : ℚ} {n : Nat} {d : List Char}
    (h : (sizeGate payload n m).fileAfter = some d) :
    (d.length : ℚ) ≤ m * 2 ^ 30 := by
  by_cases hgt : (payload.length : ℚ) > m * 2 ^ 30
  · rw [sizeGate_of_gt n hgt] at h
    simp at h
  · rw [sizeGate_of_le n (not_lt.mp hgt)] at h
    simp only [Option.some.injEq] at h
    rw [← h]
    exact not_lt.mp hgt

lemma download_file_net_error {url fid : List Char} (hid : extract_file_id url = some fid)
    {net : NetEnv} {e : Unit} (hnet : net.first = .error e) (maxGb : ℚ) :
    download_file url none net maxGb = ⟨false, none, 1⟩ := by
  simp [download_file, hid, hnet]

lemma download_file_ok {url fid : List Char} (hid : extract_file_id url = some fid)
    {net : NetEnv} {content1 : List Char} (hnet : net.first = .ok content1) (maxGb : ℚ) :
    download_file url none net maxGb =
      if interstitialDetected content1 = true then
        match searchRun confirmLit idChar content1 with
        | some _ =>
          match net.second with
          | .error _ => ⟨false, none, 2⟩
          | .ok payload => sizeGate payload 2 maxGb
        | none => sizeGate content1 1 maxGb
      else sizeGate content1 1 maxGb := by
  simp only [download_file, hid, hnet]

/-- C1 counterexample: the claim asserts the cache hit fires "even when
the link yields no extractable identifier", but both fetch paths
extract the identifier before looking at the destination; with a
destination file already present and a link carrying no identifier,
both return failure instead of the existing artifact. -/
theorem C1_counterexample :
    download_file "https://example.com/plain-page".data (some "CACHED".data)
      ⟨.ok [], .ok []⟩ 5 = ⟨false, some "CACHED".data, 0⟩ ∧
    download_with_curl "https://example.com/plain-page".data (some "CACHED".data)
      ⟨true, 0, none⟩ ⟨.ok [], .ok []⟩ 5 = ⟨false, some "CACHED".data, 0⟩ := by
  exact ⟨rfl, rfl⟩

/-- C1 (amended): whenever the link yields an extractable identifier,
a fetch with an existing destination file returns it unchanged with no
network or process call, on both the network and the curl path; and a
second fetch against whatever file a first (successful) fetch left at
the destination is such a cache hit, so the network is consulted at
most by the first call. -/
theorem C1_amended (url fid : List Char) (hid : extract_file_id url = some fid)
    (c : List Char) (net net2 : NetEnv) (cenv : CurlEnv) (maxGb : ℚ) :
    download_file url (some c) net maxGb = ⟨true, some c, 0⟩ ∧
    download_with_curl url (some c) cenv net maxGb = ⟨true, some c, 0⟩ ∧
    (∀ d, (download_file url none net maxGb).fileAfter = some d →
      download_file url (some d) net2 maxGb = ⟨true, some d, 0⟩) := by
  refine ⟨?_, ?_, fun d _ => ?_⟩ <;> simp [download_file, download_with_curl, hid]

/-- C1 witness. -/
theorem C1_witness :
    download_file "https://drive.google.com/file/d/abc/view".data
      (some "CACHED".data) ⟨.ok [], .ok []⟩ 5 = ⟨true, some "CACHED".data, 0⟩ :=
  (C1_amended "https://drive.google.com/file/d/abc/view".data "abc".data
    (by decide) "CACHED".data ⟨.ok [], .ok []⟩ ⟨.ok [], .ok []⟩
    ⟨true, 0, none⟩ 5).1

/-- C2 (confirmed): on the network path (fresh destination) no written
payload ever exceeds `maxSizeBytes = max_size_gb * 2^30`; with an
undisputed payload (no interstitial), a payload strictly over the
limit — in particular of exactly `maxSizeBytes + 1` bytes — aborts
with nothing written, and a payload of exactly `maxSizeBytes` (or
less) is written. -/
theorem C2_size_limit (url fid : List Char) (hid : extract_file_id url = some fid)
    (net : NetEnv) (maxGb : ℚ) :
    (∀ d, (download_file url none net maxGb).fileAfter = some d →
      (d.length : ℚ) ≤ maxGb * 2 ^ 30) ∧
    (∀ p, net.first = .ok p → interstitialDetected p = false →
      ((p.length : ℚ) > maxGb * 2 ^ 30 →
        download_file url none net maxGb = ⟨false, none, 1⟩) ∧
      ((p.length : ℚ) ≤ maxGb * 2 ^ 30 →
        download_file url none net maxGb = ⟨true, some p, 1⟩)) := by
  constructor
  · intro d hd
    cases hnet : net.first with
    | error e =>
      rw [download_file_net_error hid hnet maxGb] at hd
      simp at hd
    | ok content1 =>
      rw [download_file_ok hid hnet maxGb] at hd
      by_cases hdet : interstitialDetected content1 = true
      · rw [if_pos hdet] at hd
        cases htok : searchRun confirmLit idChar content1 with
        | none =>
          simp only [htok] at hd
          exact sizeGate_fileAfter hd
        | some t =>
          simp only [htok] at hd
          cases hsec : net.second with
          | error e => simp only [hsec] at hd; simp at hd
          | ok payload =>
            simp only [hsec] at hd
            exact sizeGate_fileAfter hd
      · rw [if_neg hdet] at hd
        exact sizeGate_fileAfter hd
  · intro p hp hdet
    have hbody : download_file url none net maxGb = sizeGate p 1 maxGb := by
      rw [download_file_ok hid hp maxGb, if_neg (by simp [hdet])]
    exact ⟨fun h => by rw [hbody]; exact sizeGate_of_gt 1 h,
      fun h => by rw [hbody]; exact sizeGate_of_le 1 h⟩

/-- C2 witness (the byte cap scaled down to `maxSizeBytes = 1`): a
2-byte payload aborts with nothing written, a 1-byte payload is
written. -/
theorem C2_witness :
    download_file "https://drive.google.com/file/d/abc/view".data none
      ⟨.ok "aa".data, .ok []⟩ (1 / 2 ^ 30) = ⟨false, none, 1⟩ ∧
    download_file "https://drive.google.com/file/d/abc/view".data none
      ⟨.ok "a".data, .ok []⟩ (1 / 2 ^ 30) = ⟨true, some "a".data, 1⟩ := by
  constructor
  · exact ((C2_size_limit "https://drive.google.com/file/d/abc/view".data
      "abc".data (by decide) ⟨.ok "aa".data, .ok []⟩ (1 / 2 ^ 30)).2
      "aa".data rfl (by decide)).1 (by norm_num)
  · exact ((C2_size_limit "https://drive.google.com/file/d/abc/view".data
      "abc".data (by decide) ⟨.ok "a".data, .ok []⟩ (1 / 2 ^ 30)).2
      "a".data rfl (by decide)).2 (by norm_num)

/-- C10 (confirmed): when curl is present and runs but exits nonzero
or leaves no destination file, the failure path deletes any partial
destination file, so after the call no file exists at the destination
and the caller falls back against a clean destination. -/
theorem C10_curl_atomic (url fid : List Char) (hid : extract_file_id url = some fid)
    (cenv : CurlEnv) (net : NetEnv) (maxGb : ℚ) (hp : cenv.present = true)
    (hfail : cenv.rc ≠ 0 ∨ cenv.fileAfter = none) :
    download_with_curl url none cenv net maxGb = ⟨false, none, 1⟩ := by
  rw [download_with_curl, hid, if_pos hp, if_neg]
  rintro ⟨h0, hsome⟩
  rcases hfail with h | h
  · exact h h0
  · rw [h] at hsome
    simp at hsome

/-- C10 witness: curl exits with status 1 leaving a partial file; the
outcome is failure with no destination file. -/
theorem C10_witness :
    download_with_curl "https://drive.google.com/file/d/abc/view".data none
      ⟨true, 1, some "PARTIAL".data⟩ ⟨.ok [], .ok []⟩ 5 = ⟨false, none, 1⟩ :=
  C10_curl_atomic "https://drive.google.com/file/d/abc/view".data "abc".data
    (by decide) ⟨true, 1, some "PARTIAL".data⟩ ⟨.ok [], .ok []⟩ 5 rfl
    (Or.inl (by decide))

/-- C3 counterexample: a present configuration file containing valid
JSON whose top level is a number (so the file "is not parseable as the
expected structure") makes `dict.update` raise `TypeError`, which the
code does not catch — the load fails the caller instead of yielding
the defaults. -/
theorem C3_counterexample :
    load_config (some (.ok (.num 5))) = .error () ∧
    load_config (some (.ok (.num 5))) ≠ .ok defaultConfig := by
  refine ⟨rfl, fun h => ?_⟩
  rw [show load_config (some (.ok (.num 5))) = .error () from rfl] at h
  exact Except.noConfusion h

/-- C3 (amended): a missing file and a file with a JSON syntax error
yield exactly the hard-coded defaults (whose entries map
`package_mappings` is empty); a file parsing to a JSON object is
shallow-merged over the defaults, where every persisted key's value
wins (unknown keys included) and keys absent from the file keep their
default; but a file parsing to a non-object JSON value (number,
boolean, null) raises an uncaught error to the caller. -/
theorem C3_amended :
    load_config none = .ok defaultConfig ∧
    load_config (some (.error ())) = .ok defaultConfig ∧
    getKey "package_mappings" defaultConfig = some (.obj []) ∧
    (∀ kvs, load_config (some (.ok (.obj kvs))) = .ok (dictUpdate defaultConfig kvs)) ∧
    (∀ kvs k v, (kvs.map Prod.fst).Nodup → getKey k kvs = some v →
      getKey k (dictUpdate defaultConfig kvs) = some v) ∧
    (∀ kvs k, getKey k kvs = none →
      getKey k (dictUpdate defaultConfig kvs) = getKey k defaultConfig) ∧
    (∀ n : Int, load_config (some (.ok (.num n))) = .error ()) ∧
    (∀ b : Bool, load_config (some (.ok (.bool b))) = .error ()) ∧
    load_config (some (.ok .null)) = .error () := by
  refine ⟨rfl, rfl, rfl, fun kvs => rfl, ?_, ?_, fun n => rfl, fun b => rfl, rfl⟩
  · exact fun kvs k v hnd hv => getKey_dictUpdate_mem _ hnd hv
  · exact fun kvs k h => getKey_dictUpdate_not_mem _ ((getKey_eq_none_iff k kvs).mp h)

/-- C3 witness: a persisted entries map overwrites the default one
wholesale, while an untouched default key keeps its default. -/
theorem C3_witness :
    getKey "package_mappings"
        (dictUpdate defaultConfig
          [("package_mappings", PyJson.obj [("Pkg", PyJson.null)])])
      = some (PyJson.obj [("Pkg", PyJson.null)]) ∧
    getKey "last_sync"
        (dictUpdate defaultConfig
          [("package_mappings", PyJson.obj [("Pkg", PyJson.null)])])
      = getKey "last_sync" defaultConfig := by
  constructor
  · exact C3_amended.2.2.2.2.1
      [("package_mappings", PyJson.obj [("Pkg", PyJson.null)])]
      "package_mappings" (PyJson.obj [("Pkg", PyJson.null)]) (by simp) rfl
  · exact C3_amended.2.2.2.2.2.1
      [("package_mappings", PyJson.obj [("Pkg", PyJson.null)])]
      "last_sync" rfl

/-- C4 counterexample: a package directory whose name merely contains
"LeartesStudios" as a substring (here `LeartesStudiosFan`) is not under
the vendor root, so the claim's "ordinarily the immediate parent
directory's name" requires the name `LeartesStudiosFan`; instead the
substring test fires, `parts.index` raises `ValueError`, sync
discovery aborts as a whole and download discovery drops the package. -/
theorem C4_counterexample :
    deriveName ["Assets", "Packages", "LeartesStudiosFan", "DownloadInstructions.txt"]
      = .error () ∧
    find_packages_to_sync
      [⟨["Assets", "Packages", "LeartesStudiosFan", "DownloadInstructions.txt"],
        some "No link yet"⟩] [] = .error () ∧
    find_download_instructions
      [⟨["Assets", "Packages", "LeartesStudiosFan", "DownloadInstructions.txt"],
        some "https://drive.google.com/file/d/abc/view"⟩] [] = [] := by
  refine ⟨rfl, rfl, rfl⟩

/-- C4 (amended): the two-tier rule holds exactly on paths where the
substring test is conclusive: a path whose string does not contain
"LeartesStudios" at all names the package after the parent directory;
a path with an exact `LeartesStudios` component (none earlier) names
it `LeartesStudios` when the pointer file sits directly under the
vendor root and `LeartesStudios/<subcollection>` when a sub-collection
segment intervenes.  (Paths containing the substring only inside a
longer component name fail derivation — see the counterexample.) -/
theorem C4_amended :
    (∀ parts, containsSub leartes.data (joinPath parts) = false →
      deriveName parts = .ok (parentName parts)) ∧
    (∀ (a : List String) (fname : String), leartes ∉ a →
      deriveName (a ++ leartes :: [fname]) = .ok leartes) ∧
    (∀ (a : List String) (sub fname : String) (b : List String), leartes ∉ a →
      deriveName (a ++ leartes :: sub :: (b ++ [fname]))
        = .ok (leartes ++ "/" ++ sub)) := by
  refine ⟨?_, ?_, ?_⟩
  · intro parts h
    rw [deriveName, deriveNamePath, if_neg (by simp [h])]
    rfl
  · intro a fname ha
    rw [deriveName, deriveNamePath]
    rw [if_pos (containsSub_joinPath_mem leartes a [fname])]
    rw [pyIndex_append leartes [fname] ha]
    have hlen : ¬ (a.length + 1 < (a ++ leartes :: [fname]).length - 1) := by
      simp only [List.length_append, List.length_cons, List.length_nil]
      omega
    simp only [if_neg hlen]
    rfl
  · intro a sub fname b ha
    rw [deriveName, deriveNamePath]
    rw [if_pos (containsSub_joinPath_mem leartes a (sub :: (b ++ [fname])))]
    rw [pyIndex_append leartes (sub :: (b ++ [fname])) ha]
    have hlen : a.length + 1 < (a ++ leartes :: sub :: (b ++ [fname])).length - 1 := by
      simp only [List.length_append, List.length_cons]
      omega
    have hget : (a ++ leartes :: sub :: (b ++ [fname])).getD (a.length + 1) "" = sub := by
      rw [getD_append_cons a leartes (sub :: (b ++ [fname]))]
      rfl
    simp only [if_pos hlen, hget]
    rfl

/-- C4 witness: the three layouts of the spec's locator rule. -/
theorem C4_witness :
    deriveName ["Assets", "Packages", "Plain", "DownloadInstructions.txt"]
      = .ok "Plain" ∧
    deriveName ["Assets", "Packages", "LeartesStudios", "DownloadInstructions.txt"]
      = .ok "LeartesStudios" ∧
    deriveName ["Assets", "Packages", "LeartesStudios", "CyberpunkCity",
      "DownloadInstructions.txt"] = .ok "LeartesStudios/CyberpunkCity" := by
  refine ⟨?_, ?_, ?_⟩
  · exact C4_amended.1 ["Assets", "Packages", "Plain", "DownloadInstructions.txt"]
      (by decide)
  · exact C4_amended.2.1 ["Assets", "Packages"] "DownloadInstructions.txt" (by decide)
  · exact C4_amended.2.2 ["Assets", "Packages"] "CyberpunkCity"
      "DownloadInstructions.txt" [] (by decide)

/-- C5 counterexample: pointer files named `Foo` under both the
Packages and the Audio root each produce a record; the canonical name
`Foo` appears twice in the returned sequence, so discovery is not
deduplicated by canonical name. -/
theorem C5_counterexample :
    (find_download_instructions
      [⟨["Assets", "Packages", "Foo", "DownloadInstructions.txt"],
        some "https://drive.google.com/file/d/aaa/view"⟩]
      [⟨["Assets", "Audio", "Foo", "DownloadInstructions.txt"],
        some "https://drive.google.com/file/d/bbb/view"⟩]).map DlRecord.name
      = ["Foo", "Foo"] := by
  rfl

/-- C5 (amended): discovery performs no deduplication: every readable
pointer file under either root whose text has a drive-URL match and
whose name derivation succeeds contributes its own record to the
returned sequence, so a canonical name appears once per such file,
duplicates included. -/
theorem C5_amended (P A : List TxtFile) (f : TxtFile) (hf : f ∈ P ++ A)
    (c : String) (url : List Char) (name : String)
    (hc : f.content = some c) (hurl : findDriveUrl c.data = some url)
    (hn : deriveName f.parts = .ok name) :
    (⟨name, url⟩ : DlRecord) ∈ find_download_instructions P A := by
  refine List.mem_filterMap.mpr ⟨f, hf, ?_⟩
  simp only [processDlFile, hc, hurl, hn]

/-- C5 witness. -/
theorem C5_witness :
    (⟨"Foo", "https://drive.google.com/file/d/aaa/view".data⟩ : DlRecord)
      ∈ find_download_instructions
        [⟨["Assets", "Packages", "Foo", "DownloadInstructions.txt"],
          some "https://drive.google.com/file/d/aaa/view"⟩] [] :=
  C5_amended
    [⟨["Assets", "Packages", "Foo", "DownloadInstructions.txt"],
      some "https://drive.google.com/file/d/aaa/view"⟩] []
    ⟨["Assets", "Packages", "Foo", "DownloadInstructions.txt"],
      some "https://drive.google.com/file/d/aaa/view"⟩
    (by simp) "https://drive.google.com/file/d/aaa/view"
    "https://drive.google.com/file/d/aaa/view".data "Foo" rfl rfl rfl

/-- C7 counterexample: a first response detected as the interstitial
page (it contains "virus scan warning") but carrying no
`confirm=<token>` match is itself size-checked and written: the
persisted payload is the interstitial body, not the second response's
body. -/
theorem C7_counterexample :
    download_file "https://drive.google.com/file/d/abc/view".data none
      ⟨.ok "virus scan warning".data, .ok "REAL-PAYLOAD".data⟩ 5
      = ⟨true, some "virus scan warning".data, 1⟩ := by
  rw [download_file_ok (show extract_file_id
      "https://drive.google.com/file/d/abc/view".data = some "abc".data by decide)
    rfl 5, if_pos (by decide)]
  have htok : searchRun confirmLit idChar "virus scan warning".data = none := by
    decide
  simp only [htok]
  exact sizeGate_of_le 1
    (by rw [show "virus scan warning".data.length = 18 from rfl]; norm_num)

/-- C7 (amended): when the interstitial is detected and a confirmation
token pattern-matches the first body, the GET is reissued and whatever
is persisted is the second response's body; when the interstitial is
detected but no token matches, no second GET happens and the payload
that is size-checked and (possibly) written is the first body — the
interstitial page itself. -/
theorem C7_amended (url fid : List Char) (hid : extract_file_id url = some fid)
    (net : NetEnv) (maxGb : ℚ) (p : List Char) (h1 : net.first = .ok p)
    (hdet : interstitialDetected p = true) :
    (∀ t, searchRun confirmLit idChar p = some t →
      (download_file url none net maxGb).calls = 2 ∧
      (∀ d, (download_file url none net maxGb).fileAfter = some d →
        net.second = .ok d)) ∧
    (searchRun confirmLit idChar p = none →
      (download_file url none net maxGb).calls = 1 ∧
      (∀ d, (download_file url none net maxGb).fileAfter = some d → d = p)) := by
  rw [download_file_ok hid h1 maxGb, if_pos hdet]
  constructor
  · intro t htok
    simp only [htok]
    cases hsec : net.second with
    | error e =>
      simp only [hsec]
      exact ⟨by simp, fun d hd => by simp at hd⟩
    | ok payload =>
      simp only [hsec]
      refine ⟨?_, fun d hd => ?_⟩
      · by_cases hgt : (payload.length : ℚ) > maxGb * 2 ^ 30
        · rw [sizeGate_of_gt 2 hgt]
        · rw [sizeGate_of_le 2 (not_lt.mp hgt)]
      · by_cases hgt : (payload.length : ℚ) > maxGb * 2 ^ 30
        · rw [sizeGate_of_gt 2 hgt] at hd; simp at hd
        · rw [sizeGate_of_le 2 (not_lt.mp hgt)] at hd
          simp only [Option.some.injEq] at hd
          rw [← hd]
  · intro htok
    simp only [htok]
    refine ⟨?_, fun d hd => ?_⟩
    · by_cases hgt : (p.length : ℚ) > maxGb * 2 ^ 30
      · rw [sizeGate_of_gt 1 hgt]
      · rw [sizeGate_of_le 1 (not_lt.mp hgt)]
    · by_cases hgt : (p.length : ℚ) > maxGb * 2 ^ 30
      · rw [sizeGate_of_gt 1 hgt] at hd; simp at hd
      · rw [sizeGate_of_le 1 (not_lt.mp hgt)] at hd
        simp only [Option.some.injEq] at hd
        exact hd.symm

/-- C7 witness: with a token present the second body is persisted. -/
theorem C7_witness :
    (download_file "https://drive.google.com/file/d/abc/view".data none
      ⟨.ok "please confirm=tok99 to continue".data, .ok "REAL-PAYLOAD".data⟩ 5).calls
      = 2 := by
  exact ((C7_amended "https://drive.google.com/file/d/abc/view".data "abc".data
    (by decide)
    ⟨.ok "please confirm=tok99 to continue".data, .ok "REAL-PAYLOAD".data⟩ 5
    "please confirm=tok99 to continue".data rfl (by decide)).1
    "tok99".data (by decide)).1

/-- C8 (confirmed): sync discovery returns one record per pointer file
under the roots (in order), link-less and unreadable files included,
each flagged by the substring link test; in the concrete
one-linked-one-plain scenario it returns exactly 2 records of which
exactly the linked one has `has_link = true`. -/
theorem C8_discovery (P A : List TxtFile) (recs : List SyncRecord)
    (h : find_packages_to_sync P A = .ok recs) :
    (recs.map SyncRecord.file = P ++ A ∧
      ∀ r ∈ recs, r.has_link = hasDriveLink r.file.content) ∧
    find_packages_to_sync [linkedFile] [plainFile] =
      .ok [⟨"Linked", ["Assets", "Packages", "Linked"], linkedFile, true⟩,
           ⟨"Plain", ["Assets", "Audio", "Plain"], plainFile, false⟩] := by
  exact ⟨syncDiscover_ok h, rfl⟩

/-- C8 witness. -/
theorem C8_witness :
    find_packages_to_sync [linkedFile] [plainFile] =
      .ok [⟨"Linked", ["Assets", "Packages", "Linked"], linkedFile, true⟩,
           ⟨"Plain", ["Assets", "Audio", "Plain"], plainFile, false⟩] :=
  (C8_discovery [linkedFile] [plainFile]
    [⟨"Linked", ["Assets", "Packages", "Linked"], linkedFile, true⟩,
     ⟨"Plain", ["Assets", "Audio", "Plain"], plainFile, false⟩] rfl).2

/-- C9 (confirmed): the two workflows decide "has a link" differently.
For a pointer file whose text contains the bare substring
`drive.google.com` but no full `https://drive.google.com/...` URL
match, sync discovery flags it `has_link = true` — so `sync_package`
returns success immediately without attempting an upload — while
download discovery produces no record for it at all; an unreadable
file is flagged `has_link = false`. -/
theorem C9_link_detection (c : String) (f : TxtFile)
    (hsub : containsSub "drive.google.com".data c.data = true)
    (hnofull : findDriveUrl c.data = none) (hc : f.content = some c) :
    hasDriveLink f.content = true ∧
    (∀ (name : String) (path : List String) (ee up : Bool) (ul : Option String),
      sync_package ⟨name, path, f, hasDriveLink f.content⟩ ee up ul
        = (true, false)) ∧
    processDlFile f = none ∧
    hasDriveLink none = false := by
  have hl : hasDriveLink f.content = true := by
    rw [hc]
    simpa [hasDriveLink] using hsub
  refine ⟨hl, fun name path ee up ul => ?_, ?_, rfl⟩
  · simp [sync_package, hl]
  · simp only [processDlFile, hc, hnofull]

/-- C9 witness: "see drive.google.com for details" has the bare
substring but no full URL; download discovery drops the file while a
sync record for it skips (success without upload). -/
theorem C9_witness :
    processDlFile ⟨["Assets", "Packages", "Bare", "DownloadInstructions.txt"],
      some "see drive.google.com for details"⟩ = none ∧
    sync_package ⟨"Bare", ["Assets", "Packages", "Bare"],
      ⟨["Assets", "Packages", "Bare", "DownloadInstructions.txt"],
        some "see drive.google.com for details"⟩,
      hasDriveLink (some "see drive.google.com for details")⟩ true true none
      = (true, false) := by
  constructor
  · exact (C9_link_detection "see drive.google.com for details"
      ⟨["Assets", "Packages", "Bare", "DownloadInstructions.txt"],
        some "see drive.google.com for details"⟩
      (by decide) (by decide) rfl).2.2.1
  · exact (C9_link_detection "see drive.google.com for details"
      ⟨["Assets", "Packages", "Bare", "DownloadInstructions.txt"],
        some "see drive.google.com for details"⟩
      (by decide) (by decide) rfl).2.1 "Bare" ["Assets", "Packages", "Bare"]
      true true none

lemma searchRun_prefix_id {lit s t : List Char} (cls : Char → Bool)
    (hlit : lit ≠ []) (hs : s ≠ []) (hall : ∀ c ∈ s, cls c = true)
    (ht : ∀ c, t.head? = some c → cls c = false) :
    searchRun lit cls (lit ++ (s ++ t)) = some s := by
  have htw : (s ++ t).takeWhile cls = s := by
    cases t with
    | nil => rw [List.append_nil]; exact takeWhile_all hall
    | cons c t' => exact takeWhile_append_stop t' hall (ht c rfl)
  rw [searchRun_here cls (s ++ t) hlit (by rw [htw]; exact hs), htw]

lemma searchRun_prefix_id_nil {lit s : List Char} (cls : Char → Bool)
    (hlit : lit ≠ []) (hs : s ≠ []) (hall : ∀ c ∈ s, cls c = true) :
    searchRun lit cls (lit ++ s) = some s := by
  rw [searchRun_here cls s hlit (by rw [takeWhile_all hall]; exact hs),
    takeWhile_all hall]

/-- C6 (confirmed): for each of the three accepted link shapes the
embedded identifier is returned exactly (for any nonempty identifier
over the `[a-zA-Z0-9_-]` charset); a URL at which none of the three
patterns matches anywhere yields `NotFound`; and on an ambiguous URL
carrying both an `id=` match and a later `/file/d/` match the fixed
pattern order makes `/file/d/` win. -/
theorem C6_extract (id : List Char) (hne : id ≠ [])
    (hall : ∀ c ∈ id, idChar c = true) :
    extract_file_id ("https://drive.google.com/file/d/".data ++ id
        ++ "/view?usp=sharing".data) = some id ∧
    extract_file_id ("https://drive.google.com/uc?export=download&id=".data ++ id)
      = some id ∧
    extract_file_id ("https://drive.google.com/open?id=".data ++ id) = some id ∧
    (∀ url, (∀ i, ¬ goodAt pat1 idChar url i) →
      (∀ i, ¬ goodAt pat2 idChar url i) →
      (∀ i, ¬ goodAt pat3 idChar url i) → extract_file_id url = none) ∧
    extract_file_id "https://x.y/uc?id=AAA/file/d/BBB".data = some "BBB".data := by
  have hslash : ∀ c ∈ id, c ≠ '/' :=
    fun c hc he => absurd (hall c hc) (by rw [he]; decide)
  have h1 : searchRun pat1 idChar ("https://drive.google.com/file/d/".data
      ++ id ++ "/view?usp=sharing".data) = some id := by
    rw [show "https://drive.google.com/file/d/".data
      = "https://drive.google.com".data ++ pat1 from rfl]
    simp only [List.append_assoc]
    rw [searchRun_skip idChar "https://drive.google.com".data _ (by decide)]
    refine searchRun_prefix_id idChar (by decide) hne hall ?_
    intro c hc
    rw [show ("/view?usp=sharing".data).head? = some '/' from rfl] at hc
    injection hc with h
    rw [← h]
    decide
  have hp1_2 : searchRun pat1 idChar
      ("https://drive.google.com/uc?export=download&id=".data ++ id) = none := by
    rw [searchRun_skip idChar
      "https://drive.google.com/uc?export=download&id=".data id (by decide)]
    rw [show pat1 = '/' :: "file/d/".data from rfl]
    exact searchRun_all_ne idChar hslash
  have hp2_2 : searchRun pat2 idChar
      ("https://drive.google.com/uc?export=download&id=".data ++ id) = some id := by
    rw [show "https://drive.google.com/uc?export=download&id=".data
      = "https://drive.google.com/uc?export=download&".data ++ pat2 from rfl]
    simp only [List.append_assoc]
    rw [searchRun_skip idChar
      "https://drive.google.com/uc?export=download&".data _ (by decide)]
    exact searchRun_prefix_id_nil idChar (by decide) hne hall
  have hp1_3 : searchRun pat1 idChar
      ("https://drive.google.com/open?id=".data ++ id) = none := by
    rw [searchRun_skip idChar "https://drive.google.com/open?id=".data id
      (by decide)]
    rw [show pat1 = '/' :: "file/d/".data from rfl]
    exact searchRun_all_ne idChar hslash
  have hp2_3 : searchRun pat2 idChar
      ("https://drive.google.com/open?id=".data ++ id) = some id := by
    rw [show "https://drive.google.com/open?id=".data
      = "https://drive.google.com/open?".data ++ pat2 from rfl]
    simp only [List.append_assoc]
    rw [searchRun_skip idChar "https://drive.google.com/open?".data _ (by decide)]
    exact searchRun_prefix_id_nil idChar (by decide) hne hall
  refine ⟨?_, ?_, ?_, ?_, ?_⟩
  · simp only [extract_file_id, h1]
  · simp only [extract_file_id, hp1_2, hp2_2]
  · simp only [extract_file_id, hp1_3, hp2_3]
  · intro url hg1 hg2 hg3
    simp only [extract_file_id, searchRun_eq_none_of hg1,
      searchRun_eq_none_of hg2, searchRun_eq_none_of hg3]
  · decide

/-- C6 witness: a concrete identifier through each shape, a miss, and
the ambiguous-URL priority check. -/
theorem C6_witness :
    extract_file_id
      "https://drive.google.com/file/d/1kEu526WZH_m/view?usp=sharing".data
      = some "1kEu526WZH_m".data ∧
    extract_file_id
      "https://drive.google.com/uc?export=download&id=1kEu526WZH_m".data
      = some "1kEu526WZH_m".data ∧
    extract_file_id "https://drive.google.com/open?id=1kEu526WZH_m".data
      = some "1kEu526WZH_m".data := by
  have h := C6_extract "1kEu526WZH_m".data (by decide) (by decide)
  exact ⟨h.1, h.2.1, h.2.2.1⟩

end NeonLadder
